import Mathlib

/-!
Shallow embedding of the spreadsheet cell-evaluation engine
(`Spreadsheet` class: `eval`, `updateDependentCells`,
`extractReferencedCellIds`, `evalAst`, together with the `CellInfo`
record and the `FNS` function table).  The expression parser and the
`CellRef` type are external collaborators of the engine; they are
modelled only through the outcomes the engine observes, as explained at
each definition.  State mutation in the source is modelled by explicit
state passing; thrown exceptions by an `Except`-style result; the
recursion of `updateDependentCells` (whose termination depends on the
runtime dependency graph) is made total with an explicit fuel parameter,
with fuel exhaustion reported as a distinct outcome that corresponds to
no source behaviour.  All definitions are structurally recursive so that
every concrete run evaluates inside the kernel.
-/

namespace SS

mutual

/-- The parsed-formula AST consumed by the engine (the external parser
output type: numeric literal, cell reference, function application).  A
`ref` node stores the outcome the engine observes when resolving the
reference against the base cell
(`CellRef.parse(baseCellRef.toText(node.value))` in the source):
`some id` when resolution succeeds with absolute identifier `id`, and
`none` when it fails (`isOk` false).  Within one `eval` call the same
base cell is used for every resolution of a node, so carrying the
outcome is faithful.  JS numbers are binary floating point; every claim
and concrete scenario here uses integer arithmetic, on which JS and
exact integer semantics agree. -/
inductive Ast where
  | num (v : Int)
  | ref (resolved : Option String)
  | app (fn : String) (kids : AstList)

/-- The ordered child list of an application node. -/
inductive AstList where
  | nil
  | cons (a : Ast) (rest : AstList)

end

mutual

/-- Boolean equality on ASTs. -/
def Ast.beq : Ast → Ast → Bool
  | .num v, .num w => v == w
  | .ref r, .ref s => r == s
  | .app f ks, .app g ls => f == g && AstList.beq ks ls
  | _, _ => false

/-- Boolean equality on child lists. -/
def AstList.beq : AstList → AstList → Bool
  | .nil, .nil => true
  | .cons k ks, .cons l ls => Ast.beq k l && AstList.beq ks ls
  | _, _ => false

end

mutual

theorem Ast.beq_eq_true_iff : (a b : Ast) → (Ast.beq a b = true ↔ a = b)
  | .num v, .num w => by simp [Ast.beq]
  | .num _, .ref _ => by simp [Ast.beq]
  | .num _, .app _ _ => by simp [Ast.beq]
  | .ref _, .num _ => by simp [Ast.beq]
  | .ref r, .ref s => by simp [Ast.beq]
  | .ref _, .app _ _ => by simp [Ast.beq]
  | .app _ _, .num _ => by simp [Ast.beq]
  | .app _ _, .ref _ => by simp [Ast.beq]
  | .app f ks, .app g ls => by
    simp [Ast.beq, AstList.beqList_eq_true_iff ks ls]

theorem AstList.beqList_eq_true_iff : (ks ls : AstList) → (AstList.beq ks ls = true ↔ ks = ls)
  | .nil, .nil => by simp [AstList.beq]
  | .nil, .cons _ _ => by simp [AstList.beq]
  | .cons _ _, .nil => by simp [AstList.beq]
  | .cons k ks, .cons l ls => by
    simp [AstList.beq, Ast.beq_eq_true_iff k l, AstList.beqList_eq_true_iff ks ls]

end

instance : DecidableEq Ast := fun a b => decidable_of_iff _ (Ast.beq_eq_true_iff a b)

instance : DecidableEq AstList := fun ks ls => decidable_of_iff _ (AstList.beqList_eq_true_iff ks ls)

/-- A runtime `dependents` field: either a genuine JS `Set` with its
insertion-ordered elements, or the plain object that
`JSON.parse(JSON.stringify(...))` turns a `Set` into (a `Set` serializes
as an empty JSON object, so the snapshot/restore in `eval` replaces
every `dependents` set by a plain object). -/
inductive Dependents where
  | set (elems : List String)
  | plain
deriving DecidableEq

/-- The per-cell record (`CellInfo` class in the source). -/
structure CellInfo where
  id : String
  expr : String
  ast : Option Ast
  value : Int
  dependents : Dependents
deriving DecidableEq

/-- The `CellInfo` constructor: `new CellInfo(id, expr)`. -/
def CellInfo.mk0 (id expr : String) : CellInfo :=
  { id := id, expr := expr, ast := none, value := 0, dependents := .set [] }

/-- The cell table `this.cells`, an insertion-ordered map from cell id
to record, modelled as an association list. -/
abbrev Cells := List (String × CellInfo)

/-- Property lookup `this.cells[cellId]`. -/
def lookupCell (cells : Cells) (id : String) : Option CellInfo :=
  (cells.find? (fun p => p.1 = id)).map (·.2)

/-- Assignment `this.cells[id] = info` (or the equivalent object
spread): overwrites in place when the key exists, appends otherwise. -/
def updateCell (cells : Cells) (id : String) (info : CellInfo) : Cells :=
  if cells.any (fun p => p.1 = id) then
    cells.map (fun p => if p.1 = id then (id, info) else p)
  else
    cells ++ [(id, info)]

/-- The values thrown inside the try block of `eval`: the direct
circular-reference `errResult`, the propagation circular-reference
`errResult`, the `Error` for an unsupported function in `evalAst`, the
`Error` for an unparsable dependent id in `updateDependentCells`, and
the `TypeError` raised when `.delete` is invoked on a `dependents` value
that is a plain object rather than a `Set`.  The catch block of `eval`
treats every thrown value identically. -/
inductive Thrown where
  | circularRef
  | unsupportedFn (fn : String)
  | invalidCellRef (id : String)
  | typeError
deriving DecidableEq

deriving instance DecidableEq for Except

/-- The fixed function table `FNS`, applied to the evaluated argument
list.  Arities follow the source exactly; `-` is overloaded on arity.
A name absent from the table makes `evalAst` throw.  (A call of a known
name at a wrong arity yields `NaN`-style float results in JS, which are
not representable here; no claim exercises that case.  Division is
exact integer division here; JS float division is exercised by no
claim.) -/
def applyFn : String → List Int → Option Int
  | "+", [a, b] => some (a + b)
  | "-", [a] => some (-a)
  | "-", [a, b] => some (a - b)
  | "*", [a, b] => some (a * b)
  | "/", [a, b] => some (a / b)
  | "min", [a, b] => some (min a b)
  | "max", [a, b] => some (max a b)
  | _, _ => none

mutual

/-- The evaluator `evalAst(node, baseCellRef, cellId)`: a pure reader of
the cell table.  A literal evaluates to its value; a reference resolves
and reads the stored value of the record, or 0 when no record exists or
resolution failed; an application evaluates its children left to right
and applies the named function, throwing when the name is not in
`FNS`. -/
def evalAst (cells : Cells) : Ast → Except Thrown Int
  | .num v => .ok v
  | .ref none => .ok 0
  | .ref (some id) =>
    .ok (match lookupCell cells id with
         | some info => info.value
         | none => 0)
  | .app fn kids =>
    match evalAstKids cells kids with
    | .error e => .error e
    | .ok vals =>
      match applyFn fn vals with
      | some r => .ok r
      | none => .error (.unsupportedFn fn)

/-- Left-to-right evaluation of the child list of an application node
(`node.kids.map(kid => this.evalAst(kid, ...))`). -/
def evalAstKids (cells : Cells) : AstList → Except Thrown (List Int)
  | .nil => .ok []
  | .cons k rest =>
    match evalAst cells k with
    | .error e => .error e
    | .ok v =>
      match evalAstKids cells rest with
      | .error e => .error e
      | .ok vs => .ok (v :: vs)

end

mutual

/-- The reference extractor `extractReferencedCellIds(ast, baseCellRef)`:
collects, in traversal order and with duplicates, the absolute cell id
of every `ref` node whose resolution against the base cell succeeds; a
node whose resolution fails is silently skipped. -/
def extractReferencedCellIds : Ast → List String
  | .num _ => []
  | .ref none => []
  | .ref (some id) => [id]
  | .app _ kids => extractReferencedCellIdsKids kids

/-- Traversal of the child list of an application node. -/
def extractReferencedCellIdsKids : AstList → List String
  | .nil => []
  | .cons k rest => extractReferencedCellIds k ++ extractReferencedCellIdsKids rest

end

/-- The deep copy `JSON.parse(JSON.stringify(cells))` used for the
snapshot and for its restoration in the catch block of `eval`.  Strings,
numbers, and the plain-data AST survive the round trip; a JS `Set`
serializes as the empty JSON object, so every `dependents` field comes
back as a plain object. -/
def jsonRoundTrip (cells : Cells) : Cells :=
  cells.map (fun p => (p.1, { p.2 with dependents := .plain }))

/-- Enumeration `Array.from(dependents)`: the elements of a `Set` in
insertion order; a plain object enumerates to the empty array. -/
def Dependents.elems : Dependents → List String
  | .set l => l
  | .plain => []

/-- The guarded insertion of lines 94-97 of the engine: when the field
is not a `Set` it is first replaced by a fresh empty `Set`, then `.add`
is called (a `Set` never stores duplicates). -/
def Dependents.guardedAdd (d : Dependents) (x : String) : Dependents :=
  match d with
  | .set l => .set (if x ∈ l then l else l ++ [x])
  | .plain => .set [x]

/-- The call `dependents.delete(x)` of line 75: removes the element from
a `Set`; on a plain object the method does not exist and a `TypeError`
is thrown. -/
def Dependents.del (d : Dependents) (x : String) : Except Thrown Dependents :=
  match d with
  | .set l => .ok (.set (l.filter (· ≠ x)))
  | .plain => .error .typeError

/-- The retraction loop of lines 70-77: for each previously referenced
cell id, when a record exists, delete the editing cell from its
dependents (which throws on a corrupted field). -/
def removeDeps (cellId : String) : List String → Cells → Except Thrown Cells
  | [], cells => .ok cells
  | r :: rest, cells =>
    match lookupCell cells r with
    | none => removeDeps cellId rest cells
    | some info =>
      match info.dependents.del cellId with
      | .error e => .error e
      | .ok d => removeDeps cellId rest (updateCell cells r { info with dependents := d })

/-- The edge-addition loop of lines 85-104: walk the freshly referenced
cell ids in order; on meeting the editing cell itself, stop with the
circular flag set (the `break`); otherwise add the editing cell to the
dependents of an existing record, or create a placeholder record
(`new CellInfo(referencedCellId, "0")`, so raw text "0", no AST,
value 0) whose dependents are then the editing cell alone. -/
def addDeps (cellId : String) : List String → Cells → Cells × Bool
  | [], cells => (cells, false)
  | r :: rest, cells =>
    if r = cellId then (cells, true)
    else
      match lookupCell cells r with
      | some info =>
        addDeps cellId rest
          (updateCell cells r { info with dependents := info.dependents.guardedAdd cellId })
      | none =>
        addDeps cellId rest
          (updateCell cells r { CellInfo.mk0 r "0" with dependents := .set [cellId] })

/-- Modelled from the spec: the success test of the external
`CellRef.parse` on a cell identifier, which the spec describes as a
normalized string of lower-case column letters followed by a 1-based
row number.  Only the success or failure of the parse is observable to
the engine. -/
def validCellId (s : String) : Bool :=
  let cs := s.toList
  let letters := cs.takeWhile Char.isLower
  let digits := cs.dropWhile Char.isLower
  !letters.isEmpty && !digits.isEmpty && digits.all Char.isDigit &&
    digits.headD '0' ≠ '0'

/-- Outcome of one (fuelled) run of the propagator: the updated table,
the updated shared `processedCells` set and the chronological list of
value writes into `updates`; or a thrown value; or fuel exhaustion (a
modelling artefact with no source counterpart). -/
inductive PropResult where
  | ok (cells : Cells) (processed : List String) (events : List (String × Int))
  | thrown (e : Thrown)
  | outOfFuel
deriving DecidableEq

/-- The body of the for-loop over `dependentIds` (lines 155-185 of the
engine), parameterized by the recursive descent `rec` so that the
recursion of the propagator is structural in its fuel: a dependent
without record or AST is skipped; a dependent already on the current
path throws the circular-reference value; the origin cell is added to
the processed set; an unparsable dependent id throws; otherwise the
dependent is recomputed, the write recorded, and the propagation
descends into the dependent before the loop continues. -/
def udcLoop (rec : Cells → String → List String → List String → PropResult)
    (cellId : String) : List String → Cells → List String → List String → PropResult
  | [], cells, processed, _ => .ok cells processed []
  | d :: rest, cells, processed, path =>
    match lookupCell cells d with
    | none => udcLoop rec cellId rest cells processed path
    | some dInfo =>
      match dInfo.ast with
      | none => udcLoop rec cellId rest cells processed path
      | some dAst =>
        if d ∈ path then .thrown .circularRef
        else
          let processed1 := if cellId ∈ processed then processed else processed ++ [cellId]
          if validCellId d then
            match evalAst cells dAst with
            | .error e => .thrown e
            | .ok v =>
              let cells1 := updateCell cells d { dInfo with value := v }
              match rec cells1 d processed1 (path ++ [cellId]) with
              | .outOfFuel => .outOfFuel
              | .thrown e => .thrown e
              | .ok cells2 processed2 evs =>
                match udcLoop rec cellId rest cells2 processed2 path with
                | .outOfFuel => .outOfFuel
                | .thrown e => .thrown e
                | .ok cells3 processed3 evs2 =>
                  .ok cells3 processed3 ((d, v) :: (evs ++ evs2))
          else .thrown (.invalidCellRef d)

/-- The propagator `updateDependentCells(cellId, processedCells, path)`.
A cell with no record, no AST, or already in the processed set
contributes nothing; otherwise its dependents are walked in insertion
order by the loop.  `processedCells` is a shared mutable set (threaded
through and returned), `path` is per-branch (copied on descent). -/
def updateDependentCells : Nat → Cells → String → List String → List String → PropResult
  | 0, _, _, _, _ => .outOfFuel
  | fuel + 1, cells, cellId, processed, path =>
    match lookupCell cells cellId with
    | none => .ok cells processed []
    | some info =>
      match info.ast with
      | none => .ok cells processed []
      | some _ =>
        if cellId ∈ processed then .ok cells processed []
        else
          udcLoop (fun c d pr pa => updateDependentCells fuel c d pr pa)
            cellId info.dependents.elems cells processed path

/-- The two user-facing error kinds of the engine. -/
inductive ErrKind where
  | SYNTAX
  | CIRCULAR_REF
deriving DecidableEq

/-- Outcome of one `eval` (or remove) call: the resulting table with the
chronological write events on success, the resulting table with a typed
error kind on failure, or fuel exhaustion (a modelling artefact). -/
inductive EvalOut where
  | ok (cells : Cells) (events : List (String × Int))
  | err (kind : ErrKind) (cells : Cells)
  | outOfFuel
deriving DecidableEq

/-- The body of `eval` (lines 40-135) after the expression has parsed to
`a` and the base cell reference has parsed successfully.  `expr` is the
raw formula text, used only to initialize the record of a previously
absent edited cell (the raw text of an existing record is left as it
was).  The snapshot is taken up front; every thrown value is caught by
restoring the (JSON round-tripped) snapshot and returning a
CIRCULAR_REF error. -/
def evalCore (fuel : Nat) (cells : Cells) (cellId : String) (a : Ast)
    (expr : String) : EvalOut :=
  let oldCells := jsonRoundTrip cells
  let fetched := lookupCell cells cellId
  let previousAst := match fetched with
    | some info => info.ast
    | none => none
  let cells0 := match fetched with
    | some info => updateCell cells cellId { info with ast := some a }
    | none => cells
  let refs := extractReferencedCellIds a
  let retracted : Except Thrown Cells :=
    match previousAst with
    | some p => removeDeps cellId (extractReferencedCellIds p) cells0
    | none => .ok cells0
  match retracted with
  | .error _ => .err .CIRCULAR_REF (jsonRoundTrip oldCells)
  | .ok cells1 =>
    let c0 : Bool := cellId ∈ refs
    let step := addDeps cellId refs cells1
    if c0 || step.2 then .err .CIRCULAR_REF (jsonRoundTrip oldCells)
    else
      match evalAst step.1 a with
      | .error _ => .err .CIRCULAR_REF (jsonRoundTrip oldCells)
      | .ok v =>
        let cells3 := match lookupCell step.1 cellId with
          | some info => updateCell step.1 cellId { info with value := v }
          | none => updateCell step.1 cellId
              { id := cellId, expr := expr, ast := some a, value := v,
                dependents := .set [] }
        match updateDependentCells fuel cells3 cellId [] [] with
        | .outOfFuel => .outOfFuel
        | .thrown _ => .err .CIRCULAR_REF (jsonRoundTrip oldCells)
        | .ok cells4 _ evs => .ok cells4 ((cellId, v) :: evs)

/-- Digit characters to a natural number value. -/
def charsToNat (cs : List Char) : Nat :=
  cs.foldl (fun n c => n * 10 + (c.toNat - 48)) 0

/-- Split an argument character list at the commas that sit outside any
parentheses. -/
def splitArgs : List Char → Nat → List Char → List (List Char)
  | [], _, acc => [acc.reverse]
  | c :: rest, depth, acc =>
    if c = ',' ∧ depth = 0 then acc.reverse :: splitArgs rest 0 []
    else if c = '(' then splitArgs rest (depth + 1) (c :: acc)
    else if c = ')' then splitArgs rest (depth - 1) (c :: acc)
    else splitArgs rest depth (c :: acc)

/-- The six function names of the fixed library, the only names in the
grammar of the external parser. -/
def fnNames : List String := ["+", "-", "*", "/", "min", "max"]

/-- Parse every argument of an application with the given
subexpression parser, building the child list. -/
def parseArgs (p : List Char → Option Ast) : List (List Char) → Option AstList
  | [] => some .nil
  | part :: rest =>
    match p part, parseArgs p rest with
    | some a, some l => some (.cons a l)
    | _, _ => none

/-- Modelled from the spec: the external expression parser, which this
repository consumes but does not contain.  Per the spec an expression
is a numeric literal, a cell reference, or an application of a library
function name to comma-separated arguments.  A reference written in a
formula, resolved against the edited cell (the base of every parse made
by `eval`), yields back the identifier text that was written, so the
`ref` nodes built here carry their own text as resolution outcome. -/
def parseExprChars : Nat → List Char → Option Ast
  | 0, _ => none
  | fuel + 1, cs =>
    if cs ≠ [] ∧ cs.all Char.isDigit then
      some (.num (charsToNat cs))
    else if validCellId (String.mk cs) then
      some (.ref (some (String.mk cs)))
    else
      match fnNames.find?
          (fun f => (f.toList ++ ['(']).isPrefixOf cs && cs.getLast? == some ')') with
      | none => none
      | some f =>
        let inner := (cs.drop (f.length + 1)).dropLast
        match parseArgs (parseExprChars fuel) (splitArgs inner 0 []) with
        | none => none
        | some kids => some (.app f kids)

/-- Entry point of the parser model. -/
def parseExpr (s : String) : Option Ast :=
  parseExprChars (s.length + 1) s.toList

/-- The public `eval(cellId, expr)` operation.  A parse failure of the
expression or of the base cell reference returns a SYNTAX error with
the table untouched (nothing has been mutated at those points);
otherwise the body runs as `evalCore`. -/
def eval (fuel : Nat) (cells : Cells) (cellId expr : String) : EvalOut :=
  match parseExpr expr with
  | none => .err .SYNTAX cells
  | some a =>
    if validCellId cellId then evalCore fuel cells cellId a expr
    else .err .SYNTAX cells

/-- JS object update `updates[k] = v`: overwrite the value in place
when the key exists, append the pair otherwise. -/
def assignUpd (m : List (String × Int)) (kv : String × Int) : List (String × Int) :=
  if m.any (fun p => p.1 = kv.1) then m.map (fun p => if p.1 = kv.1 then kv else p)
  else m ++ [kv]

/-- The updates object built from the chronological write events: the
`Object.assign` merges make the last write win while the first write
fixes the position of the key. -/
def finalize (evs : List (String × Int)) : List (String × Int) :=
  evs.foldl assignUpd []

/-- The table an outcome leaves behind. -/
def EvalOut.cellsAfter : EvalOut → Cells
  | .ok c _ => c
  | .err _ c => c
  | .outOfFuel => []

/-- The updates object of a successful outcome. -/
def EvalOut.updatesMap : EvalOut → Option (List (String × Int))
  | .ok _ evs => some (finalize evs)
  | _ => none

/-- The chronological write events of a successful outcome. -/
def EvalOut.eventsOf : EvalOut → Option (List (String × Int))
  | .ok _ evs => some evs
  | _ => none

/-- The error kind of a failed outcome. -/
def EvalOut.errKind : EvalOut → Option ErrKind
  | .err k _ => some k
  | _ => none

/-- Modelled from the spec: the remove operation (spec section 4.4),
whose engine-side implementation is not part of this repository (the
web service delegates it to an external package).  Per the spec it is
equivalent to assigning an empty formula: clear the AST, reset the
value to 0, retract all outgoing edges via the retraction step of
section 4.1 (the dependents set of the record is preserved), then run
the propagator over the dependents of the cell so that they see the
cell read as 0.  The propagation walk reuses the dependent loop of the
engine; the returned updates map the removed cell to 0 merged with
every propagated write. -/
def removeFormula (fuel : Nat) (cells : Cells) (cellId : String) : EvalOut :=
  match lookupCell cells cellId with
  | none => .ok cells [(cellId, 0)]
  | some info =>
    let retracted : Except Thrown Cells :=
      match info.ast with
      | some p => removeDeps cellId (extractReferencedCellIds p) cells
      | none => .ok cells
    match retracted with
    | .error _ => .err .CIRCULAR_REF (jsonRoundTrip cells)
    | .ok cells1 =>
      match lookupCell cells1 cellId with
      | none => .ok cells1 [(cellId, 0)]
      | some info1 =>
        let cells2 := updateCell cells1 cellId { info1 with ast := none, value := 0 }
        match udcLoop (fun c d pr pa => updateDependentCells fuel c d pr pa)
            cellId info1.dependents.elems cells2 [] [] with
        | .outOfFuel => .outOfFuel
        | .thrown _ => .err .CIRCULAR_REF (jsonRoundTrip cells)
        | .ok cells3 _ evs => .ok cells3 ((cellId, 0) :: evs)

/-- Invariant I1 (edge symmetry) over the cells present in the table:
the AST of Y contains a reference resolving to X exactly when the
dependents set of X contains Y. -/
def edgeSymmetry (cells : Cells) : Bool :=
  cells.all fun pX => cells.all fun pY =>
    (match pY.2.ast with
     | some a => decide (pX.1 ∈ extractReferencedCellIds a)
     | none => false)
    == pX.2.dependents.elems.contains pY.1

mutual

/-- Replace every reference node resolving to `id` by the literal 0. -/
def substRef0 (id : String) : Ast → Ast
  | .num v => .num v
  | .ref r => if r = some id then .num 0 else .ref r
  | .app f kids => .app f (substRef0Kids id kids)

/-- Child-list traversal of `substRef0`. -/
def substRef0Kids (id : String) : AstList → AstList
  | .nil => .nil
  | .cons k rest => .cons (substRef0 id k) (substRef0Kids id rest)

end

mutual

/-- Replace every reference node whose resolution failed by the
literal 0. -/
def substUnresolved0 : Ast → Ast
  | .num v => .num v
  | .ref none => .num 0
  | .ref (some id) => .ref (some id)
  | .app f kids => .app f (substUnresolved0Kids kids)

/-- Child-list traversal of `substUnresolved0`. -/
def substUnresolved0Kids : AstList → AstList
  | .nil => .nil
  | .cons k rest => .cons (substUnresolved0 k) (substUnresolved0Kids rest)

end

/-! Concrete tables used by the scenario theorems.  Each is the exact
table produced by the engine after the indicated call sequence from an
empty spreadsheet (the follow-up theorems also prove the steps). -/

/-- Table after `eval b1 3` from empty. -/
def tableB1 : Cells :=
  [("b1", { id := "b1", expr := "3", ast := some (.num 3), value := 3,
            dependents := .set [] })]

/-- Table after `eval b1 3` then `eval a1 +(b1,2)`. -/
def tableB1A1 : Cells :=
  [("b1", { id := "b1", expr := "3", ast := some (.num 3), value := 3,
            dependents := .set ["a1"] }),
   ("a1", { id := "a1", expr := "+(b1,2)",
            ast := some (.app "+" (.cons (.ref (some "b1")) (.cons (.num 2) .nil))),
            value := 5, dependents := .set [] })]

/-- Table after `eval b1 3`, `eval a1 +(b1,2)`, `eval b1 10` (the raw
text of b1 keeps its previously assigned value: the engine never updates
the `expr` field of an existing record). -/
def tableB1A1b : Cells :=
  [("b1", { id := "b1", expr := "3", ast := some (.num 10), value := 10,
            dependents := .set ["a1"] }),
   ("a1", { id := "a1", expr := "+(b1,2)",
            ast := some (.app "+" (.cons (.ref (some "b1")) (.cons (.num 2) .nil))),
            value := 12, dependents := .set [] })]

/-- Table after the above and then `remove b1`. -/
def tableB1A1rem : Cells :=
  [("b1", { id := "b1", expr := "3", ast := none, value := 0,
            dependents := .set ["a1"] }),
   ("a1", { id := "a1", expr := "+(b1,2)",
            ast := some (.app "+" (.cons (.ref (some "b1")) (.cons (.num 2) .nil))),
            value := 2, dependents := .set [] })]

/-- Table after `eval a1 +(b1,0)` from empty: a1 references the
placeholder b1, so an edit of b1 propagates into a1. -/
def tableChain : Cells :=
  [("b1", { id := "b1", expr := "0", ast := none, value := 0,
            dependents := .set ["a1"] }),
   ("a1", { id := "a1", expr := "+(b1,0)",
            ast := some (.app "+" (.cons (.ref (some "b1")) (.cons (.num 0) .nil))),
            value := 0, dependents := .set [] })]

/-- Diamond dependency table (after `eval a1 1`, `eval b1 +(a1,0)`,
`eval c1 +(a1,0)`, `eval d1 +(b1,c1)` from empty): d1 depends on b1 and
c1, both of which depend on a1. -/
def tableDiamond : Cells :=
  [("a1", { id := "a1", expr := "1", ast := some (.num 1), value := 1,
            dependents := .set ["b1", "c1"] }),
   ("b1", { id := "b1", expr := "+(a1,0)",
            ast := some (.app "+" (.cons (.ref (some "a1")) (.cons (.num 0) .nil))),
            value := 1, dependents := .set ["d1"] }),
   ("c1", { id := "c1", expr := "+(a1,0)",
            ast := some (.app "+" (.cons (.ref (some "a1")) (.cons (.num 0) .nil))),
            value := 1, dependents := .set ["d1"] }),
   ("d1", { id := "d1", expr := "+(b1,c1)",
            ast := some (.app "+" (.cons (.ref (some "b1")) (.cons (.ref (some "c1")) .nil))),
            value := 2, dependents := .set [] })]

/-- Table the diamond edit leaves behind. -/
def tableDiamondAfter : Cells :=
  [("a1", { id := "a1", expr := "1", ast := some (.num 5), value := 5,
            dependents := .set ["b1", "c1"] }),
   ("b1", { id := "b1", expr := "+(a1,0)",
            ast := some (.app "+" (.cons (.ref (some "a1")) (.cons (.num 0) .nil))),
            value := 5, dependents := .set ["d1"] }),
   ("c1", { id := "c1", expr := "+(a1,0)",
            ast := some (.app "+" (.cons (.ref (some "a1")) (.cons (.num 0) .nil))),
            value := 5, dependents := .set ["d1"] }),
   ("d1", { id := "d1", expr := "+(b1,c1)",
            ast := some (.app "+" (.cons (.ref (some "b1")) (.cons (.ref (some "c1")) .nil))),
            value := 10, dependents := .set [] })]

/-- C1: after an edit of b1 fails with CIRCULAR_REF, the table is the
JSON round trip of the snapshot, in which every dependents set has
collapsed to a corrupted plain object; it therefore differs from the
pre-call table, whose b1 record holds the dependent a1. -/
theorem c1_rollback_corrupts_dependents :
    eval 10 tableB1A1 "b1" "b1" = .err .CIRCULAR_REF (jsonRoundTrip tableB1A1) ∧
    jsonRoundTrip tableB1A1 ≠ tableB1A1 ∧
    (lookupCell (jsonRoundTrip tableB1A1) "b1").map CellInfo.dependents = some .plain ∧
    (lookupCell tableB1A1 "b1").map CellInfo.dependents = some (.set ["a1"]) := by
  refine ⟨by decide, by decide, by decide, by decide⟩

/-- C2: an edit of b1 that creates the cycle b1 - a1 - b1 is not caught
by the direct-reference check (the parsed formula of b1 references only
a1), so the cycle is detected during dependent propagation; the call
fails with kind CIRCULAR_REF, but the restored table is the corrupted
JSON round trip of the snapshot rather than the pre-call table. -/
theorem c2_propagation_cycle_detected_but_restore_corrupts :
    parseExpr "+(a1,0)" =
      some (.app "+" (.cons (.ref (some "a1")) (.cons (.num 0) .nil))) ∧
    ("b1" ∉ extractReferencedCellIds
      (.app "+" (.cons (.ref (some "a1")) (.cons (.num 0) .nil)))) ∧
    eval 10 tableChain "b1" "+(a1,0)" = .err .CIRCULAR_REF (jsonRoundTrip tableChain) ∧
    jsonRoundTrip tableChain ≠ tableChain := by
  refine ⟨by decide, by decide, by decide, by decide⟩

/-- C5 counterexample: in the diamond (d1 depends on b1 and c1, both
depending on a1), the edit `eval a1 5` recomputes d1 twice, not exactly
once: the chronological write events contain two entries for d1 (first
the stale intermediate 6, then 10). -/
theorem c5_diamond_recomputes_twice :
    eval 10 tableDiamond "a1" "5" =
      .ok tableDiamondAfter
        [("a1", 5), ("b1", 5), ("d1", 6), ("c1", 5), ("d1", 10)] ∧
    ([("a1", 5), ("b1", 5), ("d1", 6), ("c1", 5), ("d1", 10)].filter
        (fun p => p.1 = "d1")).length = 2 ∧
    ¬ ([("a1", 5), ("b1", 5), ("d1", 6), ("c1", 5), ("d1", 10)].filter
        (fun p => p.1 = "d1")).length = 1 := by
  refine ⟨by decide, by decide, by decide⟩

/-- C5 as amended: a cell can be recomputed more than once in one
propagation pass (the processed set only suppresses re-walking a
previously walked dependents list); in the diamond, the edit of a1
recomputes d1 twice and the returned updates map carries the final
value of d1, which reflects the up-to-date values of both paths
(5 + 5 = 10), not the stale intermediate. -/
theorem c5_diamond_final_value_correct :
    (eval 10 tableDiamond "a1" "5").updatesMap =
      some [("a1", 5), ("b1", 5), ("d1", 10), ("c1", 5)] ∧
    (eval 10 tableDiamond "a1" "5").cellsAfter = tableDiamondAfter ∧
    (lookupCell tableDiamondAfter "d1").map CellInfo.value = some 10 := by
  refine ⟨by decide, by decide, by decide⟩

/-- C9: the four-call scenario from an empty table.  The first three
calls are computed by the engine; the remove operation is modelled from
the spec.  Each call returns exactly the claimed updates map (the event
lists already contain one write per cell, so they equal their finalized
updates objects). -/
theorem c9_concrete_scenario :
    eval 10 [] "b1" "3" = .ok tableB1 [("b1", 3)] ∧
    eval 10 tableB1 "a1" "+(b1,2)" = .ok tableB1A1 [("a1", 5)] ∧
    eval 10 tableB1A1 "b1" "10" = .ok tableB1A1b [("b1", 10), ("a1", 12)] ∧
    removeFormula 10 tableB1A1b "b1" = .ok tableB1A1rem [("b1", 0), ("a1", 2)] ∧
    finalize [("b1", 3)] = [("b1", 3)] ∧
    finalize [("a1", 5)] = [("a1", 5)] ∧
    finalize [("b1", 10), ("a1", 12)] = [("b1", 10), ("a1", 12)] ∧
    finalize [("b1", 0), ("a1", 2)] = [("b1", 0), ("a1", 2)] := by
  refine ⟨by decide, by decide, by decide, by decide, by decide, by decide,
    by decide, by decide⟩

/-- C4: edge symmetry holds going into the failing edit (b1 holds the
dependent a1, matching the reference of a1 to b1), the edit fails with
kind CIRCULAR_REF, yet the table it leaves behind violates edge
symmetry: the restored record of a1 still references b1 while the
restored dependents of b1 have collapsed to a corrupted plain object
that no longer contains a1. -/
theorem c4_edge_symmetry_broken_by_rollback :
    edgeSymmetry tableB1A1 = true ∧
    eval 10 tableB1A1 "b1" "b1" = .err .CIRCULAR_REF (jsonRoundTrip tableB1A1) ∧
    edgeSymmetry (jsonRoundTrip tableB1A1) = false := by
  refine ⟨by decide, by decide, by decide⟩

/-- Table after `eval a1 +(b1,2)` from empty: b1 is created as a
placeholder. -/
def tablePlaceholder : Cells :=
  [("b1", { id := "b1", expr := "0", ast := none, value := 0,
            dependents := .set ["a1"] }),
   ("a1", { id := "a1", expr := "+(b1,2)",
            ast := some (.app "+" (.cons (.ref (some "b1")) (.cons (.num 2) .nil))),
            value := 2, dependents := .set [] })]

/-- C6 counterexample: the placeholder record the engine creates for a
referenced absent cell carries the raw formula text "0"
(`new CellInfo(referencedCellId, "0")`), not empty formula text. -/
theorem c6_placeholder_text_not_empty :
    eval 10 [] "a1" "+(b1,2)" = .ok tablePlaceholder [("a1", 2)] ∧
    (lookupCell tablePlaceholder "b1").map CellInfo.expr = some "0" ∧
    (lookupCell tablePlaceholder "b1").map CellInfo.expr ≠ some "" := by
  refine ⟨by decide, by decide, by decide⟩

/-- A function name outside the library table never applies. -/
theorem applyFn_eq_none (fn : String) (hfn : fn ∉ fnNames) (vals : List Int) :
    applyFn fn vals = none := by
  unfold applyFn
  split
  all_goals first
    | rfl
    | (exfalso; apply hfn; simp_all [fnNames])

/-- C7 counterexample: an application of the unrecognized function name
foo makes the whole `eval` call return the typed CIRCULAR_REF failure
(the catch-all handler converts the internal error), not an untyped
internal failure distinct from SYNTAX and CIRCULAR_REF. -/
theorem c7_unknown_fn_yields_typed_circular_ref :
    evalCore 10 [] "a1" (.app "foo" .nil) "foo()" = .err .CIRCULAR_REF [] ∧
    (evalCore 10 [] "a1" (.app "foo" .nil) "foo()").errKind = some .CIRCULAR_REF := by
  refine ⟨by decide, by decide⟩

/-- C7 as amended: inside the evaluator an unrecognized function name
is indeed an internal thrown error distinct from the typed result kinds
(`Thrown.unsupportedFn`), but it does not surface that way: the
catch-all of `eval` converts any thrown value into a typed CIRCULAR_REF
result with the snapshot restored, as the fuel-independent second part
shows for a concrete unrecognized name. -/
theorem c7_unknown_fn_internal_then_caught (cells : Cells) (fn : String)
    (kids : AstList) (vals : List Int)
    (hkids : evalAstKids cells kids = .ok vals)
    (hfn : fn ∉ fnNames) :
    evalAst cells (.app fn kids) = .error (.unsupportedFn fn) ∧
    ∀ fuel : Nat, evalCore fuel [] "a1" (.app "foo" .nil) "foo()" =
      .err .CIRCULAR_REF [] := by
  constructor
  · simp [evalAst, hkids, applyFn_eq_none fn hfn]
  · intro fuel
    rfl

/-- Witness for the amended C7 theorem at the concrete name foo. -/
theorem c7_unknown_fn_internal_then_caught_witness :
    evalAstKids [] .nil = .ok [] ∧ "foo" ∉ fnNames ∧
    (evalAst [] (.app "foo" .nil) = .error (.unsupportedFn "foo") ∧
     ∀ fuel : Nat, evalCore fuel [] "a1" (.app "foo" .nil) "foo()" =
       .err .CIRCULAR_REF []) :=
  ⟨by decide, by decide,
   c7_unknown_fn_internal_then_caught [] "foo" .nil [] (by decide) (by decide)⟩

/-- C3: an edit whose direct reference set contains the edited cell
itself always fails with kind CIRCULAR_REF, on every table and with any
fuel; in particular the calls `eval a1 a1` and `eval a1 +(a1,1)`
(whose formulas parse to a self reference and to an application
containing one) always fail with CIRCULAR_REF. -/
theorem c3_self_reference_rejected :
    (∀ (fuel : Nat) (cells : Cells) (cellId expr : String) (a : Ast),
      cellId ∈ extractReferencedCellIds a →
      ∃ c, evalCore fuel cells cellId a expr = .err .CIRCULAR_REF c) ∧
    (∀ (fuel : Nat) (cells : Cells),
      ∃ c, eval fuel cells "a1" "a1" = .err .CIRCULAR_REF c) ∧
    (∀ (fuel : Nat) (cells : Cells),
      ∃ c, eval fuel cells "a1" "+(a1,1)" = .err .CIRCULAR_REF c) := by
  have hgen : ∀ (fuel : Nat) (cells : Cells) (cellId expr : String) (a : Ast),
      cellId ∈ extractReferencedCellIds a →
      ∃ c, evalCore fuel cells cellId a expr = .err .CIRCULAR_REF c := by
    intro fuel cells cellId expr a h
    simp only [evalCore]
    split
    · exact ⟨_, rfl⟩
    · rw [if_pos]
      · exact ⟨_, rfl⟩
      · simp [h]
  refine ⟨hgen, ?_, ?_⟩
  · intro fuel cells
    have hp : parseExpr "a1" = some (.ref (some "a1")) := by decide
    have hv : validCellId "a1" = true := by decide
    simp only [eval, hp, hv, if_pos]
    exact hgen fuel cells "a1" "a1" (.ref (some "a1")) (by decide)
  · intro fuel cells
    have hp : parseExpr "+(a1,1)" =
        some (.app "+" (.cons (.ref (some "a1")) (.cons (.num 1) .nil))) := by decide
    have hv : validCellId "a1" = true := by decide
    simp only [eval, hp, hv, if_pos]
    exact hgen fuel cells "a1" "+(a1,1)" _ (by decide)

/-- Witness for C3 at a concrete self-referencing edit. -/
theorem c3_self_reference_rejected_witness :
    ("a1" ∈ extractReferencedCellIds (.ref (some "a1"))) ∧
    (∃ c, evalCore 5 [] "a1" (.ref (some "a1")) "a1" = .err .CIRCULAR_REF c) :=
  ⟨by decide,
   c3_self_reference_rejected.1 5 [] "a1" "a1" (.ref (some "a1")) (by decide)⟩

mutual

theorem evalAst_substRef0 (cells : Cells) (id : String)
    (h : lookupCell cells id = none) :
    (a : Ast) → evalAst cells a = evalAst cells (substRef0 id a)
  | .num _ => rfl
  | .ref r => by
    by_cases hr : r = some id
    · subst hr
      simp [substRef0, evalAst, h]
    · simp [substRef0, hr]
  | .app f kids => by
    simp [substRef0, evalAst, evalAstKids_substRef0 cells id h kids]

theorem evalAstKids_substRef0 (cells : Cells) (id : String)
    (h : lookupCell cells id = none) :
    (ks : AstList) → evalAstKids cells ks = evalAstKids cells (substRef0Kids id ks)
  | .nil => rfl
  | .cons k rest => by
    simp [substRef0Kids, evalAstKids, evalAst_substRef0 cells id h k,
      evalAstKids_substRef0 cells id h rest]

end

/-- C8: a reference node resolving to a cell with no record evaluates
to 0, and any formula evaluates to the same result as the same formula
with every reference to that absent cell replaced by the literal 0. -/
theorem c8_absent_cell_reads_zero (cells : Cells) (id : String)
    (h : lookupCell cells id = none) :
    evalAst cells (.ref (some id)) = .ok 0 ∧
    ∀ a : Ast, evalAst cells a = evalAst cells (substRef0 id a) :=
  ⟨by simp [evalAst, h], fun a => evalAst_substRef0 cells id h a⟩

/-- Witness for C8 at a concrete absent cell. -/
theorem c8_absent_cell_reads_zero_witness :
    lookupCell tableB1 "z9" = none ∧
    (evalAst tableB1 (.ref (some "z9")) = .ok 0 ∧
     ∀ a : Ast, evalAst tableB1 a = evalAst tableB1 (substRef0 "z9" a)) :=
  ⟨by decide, c8_absent_cell_reads_zero tableB1 "z9" (by decide)⟩

theorem lookupCell_nil (id : String) : lookupCell [] id = none := rfl

theorem lookupCell_cons (k : String) (v : CellInfo) (rest : Cells) (id : String) :
    lookupCell ((k, v) :: rest) id = if k = id then some v else lookupCell rest id := by
  by_cases hk : k = id <;> simp [lookupCell, List.find?_cons, hk]

theorem lookupCell_map_replace (rest : Cells) (id : String) (info : CellInfo)
    (j : String) (hne : id ≠ j) :
    lookupCell (rest.map (fun p => if p.1 = id then (id, info) else p)) j =
      lookupCell rest j := by
  induction rest with
  | nil => rfl
  | cons p ps ih =>
    cases p with
    | mk k v =>
      simp only [List.map_cons]
      by_cases hk : k = id
      · have hkj : k ≠ j := fun h => hne (hk ▸ h)
        simp only [hk, if_true, lookupCell_cons, if_neg hne, if_neg hkj]
        exact ih
      · simp only [if_neg hk, lookupCell_cons]
        by_cases hkj : k = j
        · simp only [if_pos hkj]
        · simp only [if_neg hkj]
          exact ih

theorem updateCell_cons (k : String) (v : CellInfo) (rest : Cells) (id : String)
    (info : CellInfo) :
    updateCell ((k, v) :: rest) id info =
      if k = id then
        (id, info) :: rest.map (fun p => if p.1 = id then (id, info) else p)
      else (k, v) :: updateCell rest id info := by
  by_cases hk : k = id <;>
    by_cases hr : rest.any (fun p => p.1 = id) <;>
      simp [updateCell, hk, hr]

theorem lookupCell_updateCell (cells : Cells) (id : String) (info : CellInfo)
    (j : String) :
    lookupCell (updateCell cells id info) j =
      if id = j then some info else lookupCell cells j := by
  induction cells with
  | nil =>
    by_cases hj : id = j <;> simp [updateCell, lookupCell_cons, lookupCell_nil, hj]
  | cons p ps ih =>
    cases p with
    | mk k v =>
      rw [updateCell_cons]
      by_cases hk : k = id
      · subst hk
        rw [if_pos rfl, lookupCell_cons]
        by_cases hj : k = j
        · subst hj; simp [lookupCell_cons]
        · rw [if_neg hj, if_neg hj, lookupCell_map_replace _ _ _ _ hj,
            lookupCell_cons, if_neg hj]
      · rw [if_neg hk, lookupCell_cons, lookupCell_cons]
        by_cases hj : k = j
        · subst hj
          have : id ≠ k := fun h => hk h.symm
          rw [if_pos rfl, if_pos rfl, if_neg this]
        · rw [if_neg hj, if_neg hj, ih]

theorem removeDeps_lookup_none (cellId : String) (l : List String) :
    ∀ (cells cells2 : Cells) (r : String),
      removeDeps cellId l cells = .ok cells2 →
      lookupCell cells r = none → lookupCell cells2 r = none := by
  induction l with
  | nil =>
    intro cells cells2 r h hr
    simp only [removeDeps] at h
    cases h
    exact hr
  | cons x rest ih =>
    intro cells cells2 r h hr
    simp only [removeDeps] at h
    cases hx : lookupCell cells x with
    | none =>
      simp only [hx] at h
      exact ih cells cells2 r h hr
    | some info =>
      simp only [hx] at h
      cases hd : info.dependents.del cellId with
      | error e =>
        simp only [hd] at h
        exact Except.noConfusion h
      | ok d =>
        simp only [hd] at h
        have hxr : x ≠ r := by
          intro hxr; rw [hxr, hr] at hx; cases hx
        refine ih _ cells2 r h ?_
        rw [lookupCell_updateCell, if_neg hxr]
        exact hr

theorem addDeps_preserves_placeholder (cellId : String) (l : List String) :
    ∀ (cells : Cells) (r : String), cellId ∉ l →
      lookupCell cells r =
        some { id := r, expr := "0", ast := none, value := 0,
               dependents := .set [cellId] } →
      lookupCell (addDeps cellId l cells).1 r =
        some { id := r, expr := "0", ast := none, value := 0,
               dependents := .set [cellId] } := by
  induction l with
  | nil => intro cells r _ hp; exact hp
  | cons x rest ih =>
    intro cells r hcid hp
    have hxc : ¬ x = cellId := fun h => hcid (by simp [h])
    have hrest : cellId ∉ rest := fun h => hcid (by simp [h])
    simp only [addDeps, if_neg hxc]
    by_cases hxr : x = r
    · subst hxr
      simp only [hp]
      refine ih _ x hrest ?_
      rw [lookupCell_updateCell, if_pos rfl]
      simp [Dependents.guardedAdd]
    · cases hx : lookupCell cells x with
      | some info =>
        simp only [hx]
        refine ih _ r hrest ?_
        rw [lookupCell_updateCell, if_neg hxr]
        exact hp
      | none =>
        simp only [hx]
        refine ih _ r hrest ?_
        rw [lookupCell_updateCell, if_neg hxr]
        exact hp

theorem addDeps_creates_placeholder (cellId : String) (l : List String) :
    ∀ (cells : Cells) (r : String), cellId ∉ l → r ∈ l →
      lookupCell cells r = none →
      lookupCell (addDeps cellId l cells).1 r =
        some { id := r, expr := "0", ast := none, value := 0,
               dependents := .set [cellId] } := by
  induction l with
  | nil =>
    intro cells r hcid hr
    cases hr
  | cons x rest ih =>
    intro cells r hcid hr habs
    have hxc : ¬ x = cellId := fun h => hcid (by simp [h])
    have hrest : cellId ∉ rest := fun h => hcid (by simp [h])
    simp only [addDeps, if_neg hxc]
    by_cases hxr : x = r
    · subst hxr
      simp only [habs]
      refine addDeps_preserves_placeholder cellId rest _ x hrest ?_
      rw [lookupCell_updateCell, if_pos rfl]
      rfl
    · have hrrest : r ∈ rest := by
        cases hr with
        | head => exact absurd rfl hxr
        | tail _ h => exact h
      cases hx : lookupCell cells x with
      | some info =>
        simp only [hx]
        refine ih _ r hrest hrrest ?_
        rw [lookupCell_updateCell, if_neg hxr]
        exact habs
      | none =>
        simp only [hx]
        refine ih _ r hrest hrrest ?_
        rw [lookupCell_updateCell, if_neg hxr]
        exact habs

theorem udcLoop_preserves_astless
    (rec : Cells → String → List String → List String → PropResult)
    (hrec : ∀ c d pr pa c2 p2 e2, rec c d pr pa = .ok c2 p2 e2 →
      ∀ r info, lookupCell c r = some info → info.ast = none →
        lookupCell c2 r = some info)
    (cellId : String) (deps : List String) :
    ∀ (cells : Cells) (processed path : List String)
      (c2 : Cells) (p2 : List String) (e2 : List (String × Int)),
      udcLoop rec cellId deps cells processed path = .ok c2 p2 e2 →
      ∀ r info, lookupCell cells r = some info → info.ast = none →
        lookupCell c2 r = some info := by
  induction deps with
  | nil =>
    intro cells processed path c2 p2 e2 h r info hl ha
    simp only [udcLoop] at h
    cases h
    exact hl
  | cons d rest ih =>
    intro cells processed path c2 p2 e2 h r info hl ha
    simp only [udcLoop] at h
    cases hd : lookupCell cells d with
    | none =>
      simp only [hd] at h
      exact ih cells processed path c2 p2 e2 h r info hl ha
    | some dInfo =>
      simp only [hd] at h
      cases hda : dInfo.ast with
      | none =>
        simp only [hda] at h
        exact ih cells processed path c2 p2 e2 h r info hl ha
      | some dAst =>
        simp only [hda] at h
        by_cases hp : d ∈ path
        · simp only [if_pos hp] at h
          exact PropResult.noConfusion h
        · simp only [if_neg hp] at h
          by_cases hv : validCellId d = true
          · simp only [if_pos hv] at h
            have hdr : d ≠ r := by
              intro hdr
              rw [hdr, hl] at hd
              cases hd
              rw [ha] at hda
              cases hda
            split at h
            · exact PropResult.noConfusion h
            · rename_i v he
              split at h
              · exact PropResult.noConfusion h
              · exact PropResult.noConfusion h
              · rename_i cc pp ee hrec1
                split at h
                · exact PropResult.noConfusion h
                · exact PropResult.noConfusion h
                · rename_i c3 p3 e3 hrest
                  cases h
                  refine ih cc pp path _ _ _ hrest r info ?_ ha
                  refine hrec _ _ _ _ _ _ _ hrec1 r info ?_ ha
                  rw [lookupCell_updateCell, if_neg hdr]
                  exact hl
          · simp only [if_neg hv] at h
            exact PropResult.noConfusion h

theorem updateDependentCells_preserves_astless :
    ∀ (fuel : Nat) (cells : Cells) (cid : String) (pr pa : List String)
      (c2 : Cells) (p2 : List String) (e2 : List (String × Int)),
      updateDependentCells fuel cells cid pr pa = .ok c2 p2 e2 →
      ∀ r info, lookupCell cells r = some info → info.ast = none →
        lookupCell c2 r = some info := by
  intro fuel
  induction fuel with
  | zero =>
    intro cells cid pr pa c2 p2 e2 h
    simp only [updateDependentCells] at h
    cases h
  | succ fuel ih =>
    intro cells cid pr pa c2 p2 e2 h r info hl ha
    simp only [updateDependentCells] at h
    cases hc : lookupCell cells cid with
    | none =>
      simp only [hc] at h
      cases h
      exact hl
    | some cInfo =>
      simp only [hc] at h
      cases hca : cInfo.ast with
      | none =>
        simp only [hca] at h
        cases h
        exact hl
      | some cAst =>
        simp only [hca] at h
        by_cases hpr : cid ∈ pr
        · simp only [if_pos hpr] at h
          cases h
          exact hl
        · simp only [if_neg hpr] at h
          exact udcLoop_preserves_astless _
            (fun c d p q c3 p3 e3 hq => ih c d p q c3 p3 e3 hq)
            cid cInfo.dependents.elems cells pr pa c2 p2 e2 h r info hl ha

/-- C6 as amended: when a successful edit references a cell identifier
for which no record exists, a placeholder record is created whose raw
formula text is "0" (not empty), whose AST is absent, whose value is 0,
and whose dependents set holds exactly the editing cell. -/
theorem c6_placeholder_created (fuel : Nat) (s : Cells) (cellId expr : String)
    (a : Ast) (r : String) (s2 : Cells) (evs : List (String × Int))
    (hok : evalCore fuel s cellId a expr = .ok s2 evs)
    (hr : r ∈ extractReferencedCellIds a)
    (habs : lookupCell s r = none) :
    lookupCell s2 r =
      some { id := r, expr := "0", ast := none, value := 0,
             dependents := .set [cellId] } := by
  simp only [evalCore] at hok
  cases hf : lookupCell s cellId with
  | none =>
    simp only [hf] at hok
    split at hok
    · exact EvalOut.noConfusion hok
    · rename_i hcond
      have hc0 : cellId ∉ extractReferencedCellIds a := by
        intro hmem
        exact hcond (by simp [hmem])
      have hne : r ≠ cellId := fun hrc => hc0 (hrc ▸ hr)
      have hpl := addDeps_creates_placeholder cellId
        (extractReferencedCellIds a) s r hc0 hr habs
      split at hok
      · exact EvalOut.noConfusion hok
      · rename_i v hv
        split at hok
        · exact EvalOut.noConfusion hok
        · exact EvalOut.noConfusion hok
        · rename_i cells4 p4 evs4 hudc
          cases hok
          refine updateDependentCells_preserves_astless fuel _ cellId [] []
            _ _ _ hudc r _ ?_ rfl
          split <;>
            (rw [lookupCell_updateCell, if_neg (fun h => hne h.symm)]; exact hpl)
  | some info =>
    simp only [hf] at hok
    cases hpa : info.ast with
    | none =>
      simp only [hpa] at hok
      split at hok
      · exact EvalOut.noConfusion hok
      · rename_i hcond
        have hc0 : cellId ∉ extractReferencedCellIds a := by
          intro hmem
          exact hcond (by simp [hmem])
        have hne : r ≠ cellId := fun hrc => hc0 (hrc ▸ hr)
        have habs0 : lookupCell (updateCell s cellId
            { info with ast := some a }) r = none := by
          rw [lookupCell_updateCell, if_neg (fun h => hne h.symm)]
          exact habs
        have hpl := addDeps_creates_placeholder cellId
          (extractReferencedCellIds a) _ r hc0 hr habs0
        split at hok
        · exact EvalOut.noConfusion hok
        · rename_i v hv
          split at hok
          · exact EvalOut.noConfusion hok
          · exact EvalOut.noConfusion hok
          · rename_i cells4 p4 evs4 hudc
            cases hok
            refine updateDependentCells_preserves_astless fuel _ cellId [] []
              _ _ _ hudc r _ ?_ rfl
            split <;>
              (rw [lookupCell_updateCell, if_neg (fun h => hne h.symm)]; exact hpl)
    | some p =>
      simp only [hpa] at hok
      split at hok
      · exact EvalOut.noConfusion hok
      · rename_i cells1 hretr
        split at hok
        · exact EvalOut.noConfusion hok
        · rename_i hcond
          have hc0 : cellId ∉ extractReferencedCellIds a := by
            intro hmem
            exact hcond (by simp [hmem])
          have hne : r ≠ cellId := fun hrc => hc0 (hrc ▸ hr)
          have habs0 : lookupCell (updateCell s cellId
              { info with ast := some a }) r = none := by
            rw [lookupCell_updateCell, if_neg (fun h => hne h.symm)]
            exact habs
          have habs1 : lookupCell cells1 r = none :=
            removeDeps_lookup_none cellId (extractReferencedCellIds p)
              _ cells1 r hretr habs0
          have hpl := addDeps_creates_placeholder cellId
            (extractReferencedCellIds a) cells1 r hc0 hr habs1
          split at hok
          · exact EvalOut.noConfusion hok
          · rename_i v hv
            split at hok
            · exact EvalOut.noConfusion hok
            · exact EvalOut.noConfusion hok
            · rename_i cells4 p4 evs4 hudc
              cases hok
              refine updateDependentCells_preserves_astless fuel _ cellId [] []
                _ _ _ hudc r _ ?_ rfl
              split <;>
                (rw [lookupCell_updateCell, if_neg (fun h => hne h.symm)]; exact hpl)

/-- Witness for the amended C6 theorem: the concrete edit of a1 with a
formula referencing the absent b1. -/
theorem c6_placeholder_created_witness :
    evalCore 10 [] "a1"
        (.app "+" (.cons (.ref (some "b1")) (.cons (.num 2) .nil)))
        "+(b1,2)" = .ok tablePlaceholder [("a1", 2)] ∧
    ("b1" ∈ extractReferencedCellIds
        (.app "+" (.cons (.ref (some "b1")) (.cons (.num 2) .nil)))) ∧
    lookupCell [] "b1" = none ∧
    lookupCell tablePlaceholder "b1" =
      some { id := "b1", expr := "0", ast := none, value := 0,
             dependents := .set ["a1"] } :=
  ⟨by decide, by decide, by decide,
   c6_placeholder_created 10 [] "a1" "+(b1,2)"
     (.app "+" (.cons (.ref (some "b1")) (.cons (.num 2) .nil)))
     "b1" tablePlaceholder [("a1", 2)] (by decide) (by decide) (by decide)⟩

mutual

theorem extract_substUnresolved0 : (a : Ast) →
    extractReferencedCellIds (substUnresolved0 a) = extractReferencedCellIds a
  | .num _ => rfl
  | .ref none => rfl
  | .ref (some _) => rfl
  | .app f kids => by
    simp [substUnresolved0, extractReferencedCellIds,
      extract_substUnresolved0Kids kids]

theorem extract_substUnresolved0Kids : (ks : AstList) →
    extractReferencedCellIdsKids (substUnresolved0Kids ks) =
      extractReferencedCellIdsKids ks
  | .nil => rfl
  | .cons k rest => by
    simp [substUnresolved0Kids, extractReferencedCellIdsKids,
      extract_substUnresolved0 k, extract_substUnresolved0Kids rest]

end

mutual

theorem evalAst_substUnresolved0 (cells : Cells) : (a : Ast) →
    evalAst cells (substUnresolved0 a) = evalAst cells a
  | .num _ => rfl
  | .ref none => rfl
  | .ref (some _) => rfl
  | .app f kids => by
    simp [substUnresolved0, evalAst, evalAstKids_substUnresolved0 cells kids]

theorem evalAstKids_substUnresolved0 (cells : Cells) : (ks : AstList) →
    evalAstKids cells (substUnresolved0Kids ks) = evalAstKids cells ks
  | .nil => rfl
  | .cons k rest => by
    simp [substUnresolved0Kids, evalAstKids, evalAst_substUnresolved0 cells k,
      evalAstKids_substUnresolved0 cells rest]

end

/-- The record of the edited cell as the substituted run stores it. -/
def substRec (i : CellInfo) : CellInfo :=
  { i with ast := i.ast.map substUnresolved0 }

/-- The table of the substituted run: identical except that the record
of the edited cell stores the substituted formula. -/
def variantCells (cellId : String) (c : Cells) : Cells :=
  c.map (fun p => if p.1 = cellId then (p.1, substRec p.2) else p)

/-- Outcome correspondence between the plain and the substituted run of
the propagator. -/
def PropResult.variant (cellId : String) : PropResult → PropResult
  | .ok c p e => .ok (variantCells cellId c) p e
  | .thrown e => .thrown e
  | .outOfFuel => .outOfFuel

/-- Outcome correspondence between the plain and the substituted run of
an edit (a failed run restores the same snapshot in both). -/
def EvalOut.variant (cellId : String) : EvalOut → EvalOut
  | .ok c e => .ok (variantCells cellId c) e
  | .err k c => .err k c
  | .outOfFuel => .outOfFuel

theorem lookupCell_variantCells (cellId : String) (c : Cells) (j : String) :
    lookupCell (variantCells cellId c) j =
      (lookupCell c j).map (fun i => if j = cellId then substRec i else i) := by
  induction c with
  | nil => rfl
  | cons p ps ih =>
    cases p with
    | mk k v =>
      by_cases hk : k = cellId <;> by_cases hj : k = j <;>
        simp_all [lookupCell_cons, variantCells]

mutual

theorem evalAst_variantCells (cellId : String) (c : Cells) : (a : Ast) →
    evalAst (variantCells cellId c) a = evalAst c a
  | .num _ => rfl
  | .ref none => rfl
  | .ref (some id) => by
    simp only [evalAst, lookupCell_variantCells]
    cases lookupCell c id with
    | none => rfl
    | some i =>
      by_cases hid : id = cellId <;> simp [hid, substRec]
  | .app f kids => by
    simp [evalAst, evalAstKids_variantCells cellId c kids]

theorem evalAstKids_variantCells (cellId : String) (c : Cells) : (ks : AstList) →
    evalAstKids (variantCells cellId c) ks = evalAstKids c ks
  | .nil => rfl
  | .cons k rest => by
    simp [evalAstKids, evalAst_variantCells cellId c k,
      evalAstKids_variantCells cellId c rest]

end

theorem variantCells_any (cellId x : String) (c : Cells) :
    (variantCells cellId c).any (fun p => p.1 = x) = c.any (fun p => p.1 = x) := by
  induction c with
  | nil => rfl
  | cons p ps ih =>
    cases p with
    | mk k v =>
      by_cases h : k = cellId <;> simp_all [variantCells, List.any_cons]

theorem variantCells_cons (cellId k : String) (v : CellInfo) (ps : Cells) :
    variantCells cellId ((k, v) :: ps) =
      (if k = cellId then (k, substRec v) else (k, v)) :: variantCells cellId ps := rfl

theorem variantCells_of_no_key (cellId : String) (c : Cells)
    (h : ¬ c.any (fun p => p.1 = cellId) = true) :
    variantCells cellId c = c := by
  induction c with
  | nil => rfl
  | cons p ps ih =>
    cases p with
    | mk k v =>
      rw [List.any_cons] at h
      simp only [Bool.or_eq_true, decide_eq_true_eq] at h
      rw [not_or] at h
      rw [variantCells_cons, if_neg h.1, ih h.2]

theorem variant_updateCell_edited (cellId : String) (c : Cells) (i : CellInfo) :
    variantCells cellId (updateCell c cellId i) = updateCell c cellId (substRec i) := by
  unfold updateCell
  by_cases h : c.any (fun p => p.1 = cellId) = true
  · rw [if_pos h, if_pos h]
    unfold variantCells
    rw [List.map_map]
    refine List.map_congr_left ?_
    intro p _
    by_cases hp : p.1 = cellId <;> simp [hp, Function.comp]
  · rw [if_neg h, if_neg h]
    unfold variantCells
    rw [List.map_append]
    rw [show List.map
        (fun p => if p.1 = cellId then (p.1, substRec p.2) else p) c
      = variantCells cellId c from rfl]
    rw [variantCells_of_no_key cellId c h]
    simp

theorem updateCell_variantCells_edited (cellId : String) (c : Cells) (i : CellInfo) :
    updateCell (variantCells cellId c) cellId i = updateCell c cellId i := by
  unfold updateCell
  rw [variantCells_any]
  by_cases h : c.any (fun p => p.1 = cellId) = true
  · rw [if_pos h, if_pos h]
    unfold variantCells
    rw [List.map_map]
    refine List.map_congr_left ?_
    intro p _
    by_cases hp : p.1 = cellId <;> simp [hp, Function.comp]
  · rw [if_neg h, if_neg h, variantCells_of_no_key cellId c h]

theorem variant_updateCell_other (cellId : String) (c : Cells) (k : String)
    (i : CellInfo) (hk : k ≠ cellId) :
    variantCells cellId (updateCell c k i) =
      updateCell (variantCells cellId c) k i := by
  unfold updateCell
  rw [variantCells_any]
  by_cases h : c.any (fun p => p.1 = k) = true
  · rw [if_pos h, if_pos h]
    unfold variantCells
    rw [List.map_map, List.map_map]
    refine List.map_congr_left ?_
    intro p _
    by_cases hp : p.1 = k
    · simp [Function.comp, hp, hk]
    · by_cases hpc : p.1 = cellId <;> simp [Function.comp, hp, hpc, Ne.symm hk]
  · rw [if_neg h, if_neg h]
    unfold variantCells
    rw [List.map_append]
    simp [hk]

theorem removeDeps_variant (cellId : String) (l : List String) :
    ∀ c : Cells, removeDeps cellId l (variantCells cellId c) =
      (removeDeps cellId l c).map (variantCells cellId) := by
  induction l with
  | nil => intro c; rfl
  | cons r rest ih =>
    intro c
    simp only [removeDeps, lookupCell_variantCells]
    cases hx : lookupCell c r with
    | none =>
      simp only [Option.map_none']
      exact ih c
    | some i =>
      simp only [Option.map_some']
      by_cases hr : r = cellId
      · subst hr
        rw [if_pos rfl]
        cases hd : i.dependents.del r with
        | error e => simp [hd, substRec, Except.map]
        | ok d =>
          have hx2 := updateCell_variantCells_edited r c
            (substRec { i with dependents := d })
          have hx3 := variant_updateCell_edited r c { i with dependents := d }
          simp only [substRec] at hx2 hx3
          simp [hd, substRec, Except.map, hx2, ← hx3, ih]
      · rw [if_neg hr]
        cases hd : i.dependents.del cellId with
        | error e => simp [hd, Except.map]
        | ok d =>
          have hx2 := (variant_updateCell_other cellId c r
            { i with dependents := d } hr).symm
          simp [hd, Except.map, hx2, ih]

theorem addDeps_variant (cellId : String) (l : List String) :
    ∀ c : Cells, addDeps cellId l (variantCells cellId c) =
      (variantCells cellId (addDeps cellId l c).1, (addDeps cellId l c).2) := by
  induction l with
  | nil => intro c; rfl
  | cons r rest ih =>
    intro c
    by_cases hr : r = cellId
    · simp only [addDeps, if_pos hr]
    · simp only [addDeps, if_neg hr, lookupCell_variantCells]
      cases hx : lookupCell c r with
      | none =>
        simp only [Option.map_none']
        have hx2 := (variant_updateCell_other cellId c r
          { CellInfo.mk0 r "0" with dependents := .set [cellId] } hr).symm
        simp [hx2, ih]
      | some i =>
        simp only [Option.map_some']
        have hx2 := (variant_updateCell_other cellId c r
          { i with dependents := i.dependents.guardedAdd cellId } hr).symm
        simp [hx2, ih]

theorem udcLoop_variant (cellId : String)
    (rec : Cells → String → List String → List String → PropResult)
    (hrec : ∀ c x pr pa,
      rec (variantCells cellId c) x pr pa = (rec c x pr pa).variant cellId)
    (origin : String) (deps : List String) :
    ∀ (c : Cells) (processed path : List String),
      udcLoop rec origin deps (variantCells cellId c) processed path =
        (udcLoop rec origin deps c processed path).variant cellId := by
  induction deps with
  | nil => intro c processed path; rfl
  | cons d rest ih =>
    intro c processed path
    simp only [udcLoop, lookupCell_variantCells]
    cases hx : lookupCell c d with
    | none =>
      simp only [Option.map_none']
      exact ih c processed path
    | some dInfo =>
      simp only [Option.map_some']
      by_cases hd : d = cellId
      · subst hd
        cases ha : dInfo.ast with
        | none =>
          simp only [eq_self_iff_true, if_true, substRec, ha, Option.map_none']
          exact ih c processed path
        | some dAst =>
          simp only [eq_self_iff_true, if_true, substRec, ha, Option.map_some']
          by_cases hpath : d ∈ path
          · simp [hpath, PropResult.variant]
          · simp only [if_neg hpath]
            by_cases hv : validCellId d = true
            · simp only [if_pos hv]
              rw [evalAst_variantCells, evalAst_substUnresolved0]
              cases he : evalAst c dAst with
              | error e => simp [PropResult.variant]
              | ok v =>
                simp only []
                have hx2 := updateCell_variantCells_edited d c
                  (substRec { dInfo with value := v })
                have hx3 := variant_updateCell_edited d c { dInfo with value := v }
                simp only [substRec, ha, Option.map_some'] at hx2 hx3
                rw [hx2, ← hx3, hrec]
                cases rec (updateCell c d
                    { id := dInfo.id, expr := dInfo.expr, ast := some dAst,
                      value := v, dependents := dInfo.dependents }) d
                    (if origin ∈ processed then processed
                     else processed ++ [origin]) (path ++ [origin]) with
                | outOfFuel => simp [PropResult.variant]
                | thrown e => simp [PropResult.variant]
                | ok cc pp ee =>
                  simp only [PropResult.variant]
                  rw [ih cc pp path]
                  cases udcLoop rec origin rest cc pp path with
                  | outOfFuel => simp [PropResult.variant]
                  | thrown e => simp [PropResult.variant]
                  | ok c3 p3 e3 => simp [PropResult.variant]
            · simp [hv, PropResult.variant]
      · simp only [if_neg hd]
        cases ha : dInfo.ast with
        | none => exact ih c processed path
        | some dAst =>
          by_cases hpath : d ∈ path
          · simp [hpath, PropResult.variant]
          · simp only [if_neg hpath]
            by_cases hv : validCellId d = true
            · simp only [if_pos hv]
              rw [evalAst_variantCells]
              cases he : evalAst c dAst with
              | error e => simp [PropResult.variant]
              | ok v =>
                simp only []
                rw [← variant_updateCell_other cellId c d _ hd, hrec]
                cases rec (updateCell c d
                    { id := dInfo.id, expr := dInfo.expr, ast := some dAst,
                      value := v, dependents := dInfo.dependents }) d
                    (if origin ∈ processed then processed
                     else processed ++ [origin]) (path ++ [origin]) with
                | outOfFuel => simp [PropResult.variant]
                | thrown e => simp [PropResult.variant]
                | ok cc pp ee =>
                  simp only [PropResult.variant]
                  rw [ih cc pp path]
                  cases udcLoop rec origin rest cc pp path with
                  | outOfFuel => simp [PropResult.variant]
                  | thrown e => simp [PropResult.variant]
                  | ok c3 p3 e3 => simp [PropResult.variant]
            · simp [hv, PropResult.variant]

theorem updateDependentCells_variant (cellId : String) :
    ∀ (fuel : Nat) (c : Cells) (x : String) (pr pa : List String),
      updateDependentCells fuel (variantCells cellId c) x pr pa =
        (updateDependentCells fuel c x pr pa).variant cellId := by
  intro fuel
  induction fuel with
  | zero => intros; rfl
  | succ fuel ih =>
    intro c x pr pa
    simp only [updateDependentCells, lookupCell_variantCells]
    cases hx : lookupCell c x with
    | none =>
      simp only [Option.map_none']
      rfl
    | some info =>
      simp only [Option.map_some']
      by_cases hxc : x = cellId
      · subst hxc
        cases ha : info.ast with
        | none =>
          simp only [if_pos rfl, substRec, ha, Option.map_none']
          rfl
        | some a0 =>
          simp only [if_pos rfl, substRec, ha, Option.map_some']
          by_cases hpr : x ∈ pr
          · simp [hpr, PropResult.variant]
          · simp only [if_neg hpr]
            exact udcLoop_variant x _
              (fun c2 y p q => ih c2 y p q) x info.dependents.elems c pr pa
      · simp only [if_neg hxc]
        cases ha : info.ast with
        | none => rfl
        | some a0 =>
          by_cases hpr : x ∈ pr
          · simp [hpr, PropResult.variant]
          · simp only [if_neg hpr]
            exact udcLoop_variant cellId _
              (fun c2 y p q => ih c2 y p q) x info.dependents.elems c pr pa

theorem addDeps_cellId_absent (cellId : String) (l : List String) :
    ∀ c : Cells, lookupCell c cellId = none →
      lookupCell (addDeps cellId l c).1 cellId = none := by
  induction l with
  | nil => intro c h; exact h
  | cons r rest ih =>
    intro c h
    by_cases hr : r = cellId
    · simp only [addDeps, if_pos hr]
      exact h
    · simp only [addDeps, if_neg hr]
      cases hx : lookupCell c r with
      | some i =>
        refine ih _ ?_
        rw [lookupCell_updateCell, if_neg hr]
        exact h
      | none =>
        refine ih _ ?_
        rw [lookupCell_updateCell, if_neg hr]
        exact h

theorem finish_variant (cellId : String) (v : Int) (R : Cells) (q : PropResult) :
    (match q.variant cellId with
     | .outOfFuel => EvalOut.outOfFuel
     | .thrown _ => .err .CIRCULAR_REF R
     | .ok c4 _ evs => .ok c4 ((cellId, v) :: evs)) =
    (match q with
     | .outOfFuel => EvalOut.outOfFuel
     | .thrown _ => .err .CIRCULAR_REF R
     | .ok c4 _ evs => .ok c4 ((cellId, v) :: evs)).variant cellId := by
  cases q <;> simp [PropResult.variant, EvalOut.variant]

theorem evalCore_variant (fuel : Nat) (s : Cells) (cellId expr : String) (a : Ast) :
    evalCore fuel s cellId (substUnresolved0 a) expr =
      (evalCore fuel s cellId a expr).variant cellId := by
  simp only [evalCore, extract_substUnresolved0]
  cases hf : lookupCell s cellId with
  | none =>
    simp only []
    by_cases hcirc : (decide (cellId ∈ extractReferencedCellIds a)
        || (addDeps cellId (extractReferencedCellIds a) s).2) = true
    · simp [hcirc, EvalOut.variant]
    · simp only [if_neg hcirc]
      rw [evalAst_substUnresolved0]
      cases he : evalAst (addDeps cellId (extractReferencedCellIds a) s).1 a with
      | error e => simp [EvalOut.variant]
      | ok v =>
        simp only []
        rw [addDeps_cellId_absent cellId (extractReferencedCellIds a) s hf]
        simp only []
        rw [show (updateCell (addDeps cellId (extractReferencedCellIds a) s).1
              cellId
              { id := cellId, expr := expr, ast := some (substUnresolved0 a),
                value := v, dependents := .set [] })
          = variantCells cellId
              (updateCell (addDeps cellId (extractReferencedCellIds a) s).1
                cellId
                { id := cellId, expr := expr, ast := some a, value := v,
                  dependents := .set [] }) from by
            rw [variant_updateCell_edited]
            simp [substRec]]
        rw [updateDependentCells_variant]
        exact finish_variant cellId v _ _
  | some info =>
    simp only []
    rw [show (updateCell s cellId
          { id := info.id, expr := info.expr,
            ast := some (substUnresolved0 a), value := info.value,
            dependents := info.dependents })
      = variantCells cellId (updateCell s cellId { info with ast := some a })
        from by
        rw [variant_updateCell_edited]
        simp [substRec]]
    cases hpa : info.ast with
    | none =>
      simp only []
      rw [addDeps_variant]
      simp only []
      by_cases hcirc : (decide (cellId ∈ extractReferencedCellIds a)
          || (addDeps cellId (extractReferencedCellIds a)
                (updateCell s cellId { info with ast := some a })).2) = true
      · simp [hcirc, EvalOut.variant]
      · simp only [if_neg hcirc]
        rw [evalAst_variantCells, evalAst_substUnresolved0,
          lookupCell_variantCells]
        cases he : evalAst (addDeps cellId (extractReferencedCellIds a)
            (updateCell s cellId { info with ast := some a })).1 a with
        | error e => simp [EvalOut.variant]
        | ok v =>
          simp only []
          cases h3 : lookupCell (addDeps cellId (extractReferencedCellIds a)
              (updateCell s cellId { info with ast := some a })).1 cellId with
          | none =>
            simp only [Option.map_none']
            rw [show (updateCell (variantCells cellId
                  (addDeps cellId (extractReferencedCellIds a)
                    (updateCell s cellId { info with ast := some a })).1)
                  cellId
                  { id := cellId, expr := expr,
                    ast := some (substUnresolved0 a), value := v,
                    dependents := .set [] })
              = variantCells cellId
                  (updateCell (addDeps cellId (extractReferencedCellIds a)
                    (updateCell s cellId { info with ast := some a })).1
                    cellId
                    { id := cellId, expr := expr, ast := some a, value := v,
                      dependents := .set [] }) from by
                rw [updateCell_variantCells_edited, variant_updateCell_edited]
                simp [substRec]]
            rw [updateDependentCells_variant]
            exact finish_variant cellId v _ _
          | some i3 =>
            simp only [Option.map_some', if_true]
            rw [show (updateCell (variantCells cellId
                  (addDeps cellId (extractReferencedCellIds a)
                    (updateCell s cellId { info with ast := some a })).1)
                  cellId
                  { id := (substRec i3).id, expr := (substRec i3).expr,
                    ast := (substRec i3).ast, value := v,
                    dependents := (substRec i3).dependents })
              = variantCells cellId
                  (updateCell (addDeps cellId (extractReferencedCellIds a)
                    (updateCell s cellId { info with ast := some a })).1
                    cellId { i3 with value := v }) from by
                rw [updateCell_variantCells_edited, variant_updateCell_edited]
                simp [substRec]]
            rw [updateDependentCells_variant]
            exact finish_variant cellId v _ _
    | some p =>
      simp only []
      rw [removeDeps_variant]
      cases hret : removeDeps cellId (extractReferencedCellIds p)
          (updateCell s cellId { info with ast := some a }) with
      | error e => simp [Except.map, EvalOut.variant]
      | ok c1 =>
        simp only [Except.map]
        rw [addDeps_variant]
        simp only []
        by_cases hcirc : (decide (cellId ∈ extractReferencedCellIds a)
            || (addDeps cellId (extractReferencedCellIds a) c1).2) = true
        · simp [hcirc, EvalOut.variant]
        · simp only [if_neg hcirc]
          rw [evalAst_variantCells, evalAst_substUnresolved0,
            lookupCell_variantCells]
          cases he : evalAst (addDeps cellId
              (extractReferencedCellIds a) c1).1 a with
          | error e => simp [EvalOut.variant]
          | ok v =>
            simp only []
            cases h3 : lookupCell (addDeps cellId
                (extractReferencedCellIds a) c1).1 cellId with
            | none =>
              simp only [Option.map_none']
              rw [show (updateCell (variantCells cellId
                    (addDeps cellId (extractReferencedCellIds a) c1).1)
                    cellId
                    { id := cellId, expr := expr,
                      ast := some (substUnresolved0 a), value := v,
                      dependents := .set [] })
                = variantCells cellId
                    (updateCell (addDeps cellId
                      (extractReferencedCellIds a) c1).1
                      cellId
                      { id := cellId, expr := expr, ast := some a, value := v,
                        dependents := .set [] }) from by
                  rw [updateCell_variantCells_edited, variant_updateCell_edited]
                  simp [substRec]]
              rw [updateDependentCells_variant]
              exact finish_variant cellId v _ _
            | some i3 =>
              simp only [Option.map_some', if_true]
              rw [show (updateCell (variantCells cellId
                    (addDeps cellId (extractReferencedCellIds a) c1).1)
                    cellId
                    { id := (substRec i3).id, expr := (substRec i3).expr,
                      ast := (substRec i3).ast, value := v,
                      dependents := (substRec i3).dependents })
                = variantCells cellId
                    (updateCell (addDeps cellId
                      (extractReferencedCellIds a) c1).1
                      cellId { i3 with value := v }) from by
                  rw [updateCell_variantCells_edited, variant_updateCell_edited]
                  simp [substRec]]
              rw [updateDependentCells_variant]
              exact finish_variant cellId v _ _

/-- C10: a reference node whose resolution against the base cell fails
contributes no dependency edge (the extractor omits it, so the extracted
reference set is that of the formula with the node replaced by the
literal 0) and evaluates to 0 (the evaluator treats the formula exactly
as the one with the node replaced by the literal 0); consequently the
edit behaves exactly as the same edit with every unresolvable reference
replaced by the literal 0: same success or failure, same error kind and
restored table on failure, same write events on success, and the same
final table except that the edited cell stores the original formula. -/
theorem c10_unresolved_refs_ignored :
    (∀ s : Cells, evalAst s (.ref none) = .ok 0) ∧
    extractReferencedCellIds (.ref none) = [] ∧
    (∀ a : Ast, extractReferencedCellIds (substUnresolved0 a) =
      extractReferencedCellIds a) ∧
    (∀ (s : Cells) (a : Ast),
      evalAst s (substUnresolved0 a) = evalAst s a) ∧
    (∀ (fuel : Nat) (s : Cells) (cellId expr : String) (a : Ast),
      evalCore fuel s cellId (substUnresolved0 a) expr =
        (evalCore fuel s cellId a expr).variant cellId) :=
  ⟨fun _ => rfl, rfl, extract_substUnresolved0, evalAst_substUnresolved0,
    evalCore_variant⟩

end SS
